import Mathlib

/-!
Shallow embedding of the acquisition subsystem of the cnpj-getter
repository: the relevance filter, the WebDAV listing loop, the file
transfer worker, the month-download orchestrator
(src/app/pipeline/download.py), the month finder
(src/app/orchestrator/find.py) and the default-month helper
(src/app/config.py).

Network responses are modelled by oracles (functions from attempt /
call number to the observable outcome of that network interaction);
the local filesystem for a month directory is modelled as a partial
map from file name to file size.  Backoff sleeps are recorded as lists
of waited time-units rather than performed.
-/

namespace CNPJ

/-! ### Character-level string operations

The Python code uses str.lower, str.startswith, str.endswith,
str.rstrip, str.split and the in operator.  They are modelled here on
the character list underlying a String so that every definition
evaluates by kernel reduction. -/

/-- Model of Python str.lower restricted to ASCII letters (all names
the code compares against are ASCII). -/
def lowerStr (s : String) : String :=
  ⟨s.data.map Char.toLower⟩

/-- Model of Python str.startswith. -/
def startsWithStr (s p : String) : Bool :=
  p.data.isPrefixOf s.data

/-- Model of Python str.endswith. -/
def endsWithStr (s p : String) : Bool :=
  p.data.isSuffixOf s.data

/-- Model of the Python in operator on strings: the pattern occurs as
a contiguous substring. -/
def infixOf (pat : List Char) : List Char → Bool
  | [] => pat.isEmpty
  | c :: rest => pat.isPrefixOf (c :: rest) || infixOf pat rest

/-! ### Relevance filter — CNPJDownloader._is_relevant_zip -/

/-- Embedding of CNPJDownloader._is_relevant_zip (download.py):
lowercase the name and test the four fixed dataset name beginnings. -/
def is_relevant_zip (name : String) : Bool :=
  let n := lowerStr name
  startsWithStr n "estabelecimentos" ||
  startsWithStr n "empresas" ||
  startsWithStr n "cnae" ||
  startsWithStr n "municipios"

/-- Embedding of the selection filter inside
CNPJDownloader._list_month_zips (download.py): a parsed entry name is
kept iff its lowercase form ends with ".zip" and the relevance
predicate accepts it. -/
def selectZipNames (names : List String) : List String :=
  names.filter (fun n => endsWithStr (lowerStr n) ".zip" && is_relevant_zip n)

/-- Embedding of the basename extraction applied to each href text in
_list_month_zips and _list_month_folders: strip trailing slashes and
take the last slash-separated segment (Python
href.rstrip of "/" followed by split on "/" and taking the final
element). -/
def hrefName (href : String) : String :=
  let stripped := (href.data.reverse.dropWhile (fun c => c = '/')).reverse
  ⟨(stripped.reverse.takeWhile (fun c => c ≠ '/')).reverse⟩

/-! ### Listing loop — CNPJDownloader._list_month_zips

The network is an oracle mapping the attempt number (1-based) to the
observable outcome of that PROPFIND attempt: either a failure
(transport error, HTTP error or malformed XML — all surface as an
exception caught by the retry loop) or a parsed page, given as the
list of href texts found in the response. -/

/-- Observable outcome of one PROPFIND attempt. -/
inductive ListEvent where
  | err
  | page (hrefs : List String)

/-- Result of _list_month_zips: the zip names on success, or the
RuntimeError raised after the retry budget is spent, which carries the
month in its message. -/
inductive ListOutcome where
  | ok (names : List String)
  | exhausted (month : String)
  deriving DecidableEq

/-- A run of the listing loop: its result, the backoff waits performed
between attempts (in time-units, in order), and how many attempts were
made. -/
structure ListingRun where
  outcome : ListOutcome
  waits : List Nat
  attempts : Nat
  deriving DecidableEq

/-- One iteration of the try block of _list_month_zips: on a parsed
page, extract each href basename and keep relevant zip names; an empty
result raises (RuntimeError "No ZIPs found") which the except clause
treats exactly like a transport failure. -/
def listAttempt (ev : ListEvent) : Option (List String) :=
  match ev with
  | .err => none
  | .page hrefs =>
    let zips := selectZipNames (hrefs.map hrefName)
    if zips.isEmpty then none else some zips

/-- The retry loop of _list_month_zips.  attempt is the 1-based
attempt counter; fuel is the number of attempts still allowed, so fuel
is retries on entry and the final attempt inside the loop raises
rather than waiting.  The wait before the next attempt is
3 * attempt ^ 2 time-units (the Python code computes
3.0 * (attempt ** 2) seconds). -/
def listLoop (month : String) (events : Nat → ListEvent) :
    Nat → Nat → ListingRun
  | _, 0 => ⟨.exhausted month, [], 0⟩
  | attempt, fuel + 1 =>
    match listAttempt (events attempt) with
    | some zips => ⟨.ok zips, [], 1⟩
    | none =>
      if fuel = 0 then ⟨.exhausted month, [], 1⟩
      else
        let r := listLoop month events (attempt + 1) fuel
        ⟨r.outcome, 3 * attempt ^ 2 :: r.waits, r.attempts + 1⟩

/-- Embedding of CNPJDownloader._list_month_zips with its retry
budget of 5, the value every call site uses. -/
def list_month_zips (month : String) (events : Nat → ListEvent) :
    ListingRun :=
  listLoop month events 1 5

/-! ### Transfer worker — CNPJDownloader._download_file

The oracle maps the attempt number to the observable outcome of that
GET attempt.  The local file at the target path is a value of type
Option Nat: none when no file exists, some s for a file of s bytes. -/

/-- Observable outcome of one GET attempt: noConn models urlopen
raising before any byte is written; resp gives the declared
Content-Type header and the streaming result, where Except.error p
means the connection died mid-stream after p bytes were written and
Except.ok n means the full n-byte body was written. -/
inductive FetchEvent where
  | noConn
  | resp (contentType : String) (stream : Except Nat Nat)

/-- A run of the transfer loop: the final state of the target path,
whether the transfer succeeded (failure means the last error
propagated to the caller), the backoff waits and the attempt count. -/
structure FetchRun where
  file : Option Nat
  success : Bool
  waits : List Nat
  attempts : Nat
  deriving DecidableEq

/-- State of the target path right after the try block of
_download_file stops, before the except clause runs, together with
whether the block completed.  The content-type check
(raising unless "zip" occurs in the lowercased header) happens before
the output file is opened; a mid-stream failure leaves the partial
write on disk at this point. -/
def fetchAttemptBody (file : Option Nat) (ev : FetchEvent) :
    Option Nat × Bool :=
  match ev with
  | .noConn => (file, false)
  | .resp ct stream =>
    if infixOf "zip".data (lowerStr ct).data then
      match stream with
      | .ok n => (some n, true)
      | .error p => (some p, false)
    else (file, false)

/-- One full attempt of _download_file including the except clause:
on any caught failure the partially written (or stale) file is
unlinked, so the path is empty afterwards. -/
def fetchAttempt (file : Option Nat) (ev : FetchEvent) :
    Option Nat × Bool :=
  let r := fetchAttemptBody file ev
  if r.2 then (r.1, true) else (none, false)

/-- The retry loop of _download_file, with the same 3 * attempt ^ 2
backoff as the listing loop; the final failed attempt re-raises
without waiting. -/
def fetchLoop (events : Nat → FetchEvent) (file : Option Nat) :
    Nat → Nat → FetchRun
  | _, 0 => ⟨file, false, [], 0⟩
  | attempt, fuel + 1 =>
    let r := fetchAttempt file (events attempt)
    if r.2 then ⟨r.1, true, [], 1⟩
    else if fuel = 0 then ⟨r.1, false, [], 1⟩
    else
      let rest := fetchLoop events r.1 (attempt + 1) fuel
      ⟨rest.file, rest.success, 3 * attempt ^ 2 :: rest.waits,
        rest.attempts + 1⟩

/-- Embedding of CNPJDownloader._download_file with its retry budget
of 3, the value every call site uses. -/
def download_file (events : Nat → FetchEvent) (file : Option Nat) :
    FetchRun :=
  fetchLoop events file 1 3

/-! ### Download orchestrator — CNPJDownloader.download_month

The month directory on disk is a partial map from file name to size.
A round oracle gives, for each 1-based round number, the result of the
round's successful zip listing (the call made inside _download_once),
the observable outcome of the transfer worker for each dispatched file
(some s: the worker succeeded leaving an s-byte file; none: all its
retries failed, it unlinked the partial file and its error was caught
and logged by _download_once), and the result of the second listing
made by _find_missing_zips.  A listing call that exhausts its retries
raises out of download_month and produces no result at all; the round
oracle models the runs in which every listing call succeeds, which are
the runs the orchestrator-level claims quantify over.  Transfers of
one round run on a two-worker pool and are joined before the re-check;
the model serializes them in dispatch order, which fixes one of the
admissible completion orders. -/

/-- The month directory: file name to size in bytes. -/
abbrev FS := String → Option Nat

/-- The presence test of _download_once and _find_missing_zips: the
path exists and its size is nonzero. -/
def present (fs : FS) (n : String) : Bool :=
  match fs n with
  | some s => decide (0 < s)
  | none => false

/-- A successful transfer leaves an s-byte file at the target path. -/
def setFile (fs : FS) (n : String) (s : Nat) : FS :=
  fun m => if m = n then some s else fs m

/-- A failed transfer unlinks the target path. -/
def removeFile (fs : FS) (n : String) : FS :=
  fun m => if m = n then none else fs m

/-- The partition loop of _download_once over the listed names, in
listing order: present files are appended to skipped, the rest become
transfer tasks. -/
def partitionZips (fs : FS) : List String → List String × List String
  | [] => ([], [])
  | n :: rest =>
    let r := partitionZips fs rest
    if present fs n then (n :: r.1, r.2) else (r.1, n :: r.2)

/-- The fan-out/fan-in of _download_once: run every task, apply its
effect on the directory, and collect the names whose transfer
succeeded (a failed transfer is logged and omitted). -/
def runTasks (fetch : String → Option Nat) (fs : FS) :
    List String → FS × List String
  | [] => (fs, [])
  | n :: rest =>
    match fetch n with
    | some s =>
      let r := runTasks fetch (setFile fs n s) rest
      (r.1, n :: r.2)
    | none =>
      let r := runTasks fetch (removeFile fs n) rest
      (r.1, r.2)

/-- Observable network behavior of one round. -/
structure RoundOracle where
  listing : List String
  fetch : String → Option Nat
  recheck : List String

/-- Result of one _download_once call together with the dispatched
task list and the directory it leaves behind. -/
structure OnceResult where
  fs : FS
  downloaded : List String
  skipped : List String
  tasks : List String

/-- Embedding of CNPJDownloader._download_once: list, partition into
skipped and tasks, dispatch the tasks, collect successes. -/
def download_once (o : RoundOracle) (fs : FS) : OnceResult :=
  let parts := partitionZips fs o.listing
  let r := runTasks o.fetch fs parts.2
  ⟨r.1, r.2, parts.1, parts.2⟩

/-- Embedding of CNPJDownloader._find_missing_zips: re-list, and keep
the names whose local file is absent or empty. -/
def find_missing_zips (recheck : List String) (fs : FS) : List String :=
  recheck.filter (fun n => !present fs n)

/-- Outcome of download_month: a DownloadResult, or the RuntimeError
raised after the round budget, whose message interpolates the month
and the round budget (and nothing else). -/
inductive MonthOutcome where
  | ok (downloaded skipped : List String)
  | incompleteErr (month : String) (maxRounds : Nat)
  deriving DecidableEq

/-- What one round did, for stating per-round properties. -/
structure RoundRecord where
  fsBefore : FS
  listing : List String
  skipped : List String
  tasks : List String
  downloaded : List String
  missing : List String

/-- A run of download_month: its outcome, the final directory, and the
per-round trace. -/
structure MonthRun where
  outcome : MonthOutcome
  fs : FS
  trace : List RoundRecord

/-- The round loop of download_month: downloaded lists accumulate
across rounds (downloaded_all.extend), the skipped list is overwritten
each round (skipped_all = result.skipped), and the loop returns as
soon as _find_missing_zips comes back empty.  round is the 1-based
round number and fuel the rounds still allowed; exhausting the budget
raises with the accumulated lists discarded.  The 10-unit inter-round
sleep has no observable effect on the claims and is not recorded. -/
def monthLoop (month : String) (o : Nat → RoundOracle) :
    FS → List String → Nat → Nat → MonthRun
  | fs, _dlAcc, _round, 0 => ⟨.incompleteErr month 5, fs, []⟩
  | fs, dlAcc, round, fuel + 1 =>
    let once := download_once (o round) fs
    let dlAcc2 := dlAcc ++ once.downloaded
    let missing := find_missing_zips (o round).recheck once.fs
    let rec0 : RoundRecord :=
      ⟨fs, (o round).listing, once.skipped, once.tasks,
        once.downloaded, missing⟩
    if missing.isEmpty then
      ⟨.ok dlAcc2 once.skipped, once.fs, [rec0]⟩
    else
      let rest := monthLoop month o once.fs dlAcc2 (round + 1) fuel
      ⟨rest.outcome, rest.fs, rec0 :: rest.trace⟩

/-- Embedding of CNPJDownloader.download_month with its fixed round
budget max_rounds = 5. -/
def download_month (month : String) (o : Nat → RoundOracle)
    (fs : FS) : MonthRun :=
  monthLoop month o fs [] 1 5

/-! ### Month finder — CNPJMonthFinder (find.py)

A DAV response is a list of response elements; each one yields an
optional href text and an optional parsed getlastmodified timestamp
(an abstract instant, modelled as an integer in fixed time-units;
elements missing either part are skipped by the code).  The network is
an oracle from a 0-based call counter to the outcome of that PROPFIND
request, so that the number of requests a function issues is
observable. -/

/-- One response child of the finder PROPFIND reply. -/
structure DavEntry where
  href : Option String
  lastModified : Option Int

/-- Embedding of CNPJMonthFinder._is_month_folder: length 7, a hyphen
at index 4, digits at indices 0-3 and 5-6 (name[:4].isdigit() and
name[5:].isdigit() in the code; digits are modelled as ASCII). -/
def is_month_folder (name : String) : Bool :=
  let cs := name.data
  cs.length = 7 && cs.getD 4 '?' == '-' &&
  (cs.take 4).all Char.isDigit && (cs.drop 5).all Char.isDigit

/-- The per-entry step of the parsing loop in _list_month_folders:
skip entries missing href or getlastmodified, extract the basename,
keep only month-shaped folder names. -/
def monthPair (e : DavEntry) : Option (String × Int) :=
  match e.href, e.lastModified with
  | some h, some lm =>
    let name := hrefName h
    if is_month_folder name then some (name, lm) else none
  | _, _ => none

/-- Insertion into the months dict: a repeated key is overwritten in
place, a new key is appended (Python dict insertion-order
semantics). -/
def dictInsert (d : List (String × Int)) (k : String) (v : Int) :
    List (String × Int) :=
  if d.any (fun p => p.1 == k) then
    d.map (fun p => if p.1 == k then (k, v) else p)
  else d ++ [(k, v)]

/-- The dict built by the parsing loop of _list_month_folders. -/
def parseMonthFolders (entries : List DavEntry) : List (String × Int) :=
  entries.foldl
    (fun d e =>
      match monthPair e with
      | some kv => dictInsert d kv.1 kv.2
      | none => d)
    []

/-- Result of a finder operation together with the number of PROPFIND
requests it issued. -/
structure FinderRun where
  result : Except Unit (List (String × Int))
  calls : Nat

/-- Embedding of CNPJMonthFinder._list_month_folders: a single
PROPFIND request with no retry loop — an exception from the request
propagates directly, and exactly one network call is made either
way. -/
def list_month_folders (net : Nat → Except Unit (List DavEntry)) :
    FinderRun :=
  match net 0 with
  | .error e => ⟨.error e, 1⟩
  | .ok entries => ⟨.ok (parseMonthFolders entries), 1⟩

/-- Embedding of CNPJMonthFinder._cutoff_datetime: the current instant
minus the recency window (both in the same abstract time-units). -/
def cutoff_datetime (now daysWindow : Int) : Int :=
  now - daysWindow

/-- Lexicographic code-point order on strings, the order Python
list.sort uses for str values. -/
def lexLe : List Char → List Char → Bool
  | [], _ => true
  | _ :: _, [] => false
  | a :: as, b :: bs =>
    if a.toNat < b.toNat then true
    else if b.toNat < a.toNat then false
    else lexLe as bs

/-- Model of Python list.sort on strings. -/
def sortStrings (l : List String) : List String :=
  l.mergeSort (fun a b => lexLe a.data b.data)

/-- Result of get_updated_months with the network call count. -/
structure MonthsRun where
  result : Except Unit (List String)
  calls : Nat

/-- Embedding of CNPJMonthFinder.get_updated_months: list the month
folders once, keep those whose last-modified instant is at least the
cutoff, sort ascending.  An error from the listing propagates
unmodified. -/
def get_updated_months (net : Nat → Except Unit (List DavEntry))
    (now daysWindow : Int) : MonthsRun :=
  let cutoff := cutoff_datetime now daysWindow
  match list_month_folders net with
  | ⟨.error e, c⟩ => ⟨.error e, c⟩
  | ⟨.ok months, c⟩ =>
    ⟨.ok (sortStrings (months.filterMap
        (fun p => if cutoff ≤ p.2 then some p.1 else none))), c⟩

/-! ### Default month — config.get_default_cnpj_month -/

/-- Zero padding performed by the Python format specifier 02d: pad with
a leading zero to a width of at least two digits. -/
def format02 (n : Nat) : String :=
  if n < 10 then "0" ++ toString n else toString n

/-- Embedding of config.get_default_cnpj_month, with the current date
passed explicitly as a year and a month number: subtract one from the
month and roll back the year when the result is zero, then format. -/
def get_default_cnpj_month (todayYear todayMonth : Nat) : String :=
  let month := todayMonth - 1
  let p := if month = 0 then (todayYear - 1, 12) else (todayYear, month)
  toString p.1 ++ "-" ++ format02 p.2

/-- Modelled from the spec claim wording: the calendar month
immediately before a given (year, month) pair. -/
def prevCalendarMonth (y m : Nat) : Nat × Nat :=
  if m = 1 then (y - 1, 12) else (y, m - 1)

/-- Modelled from the spec claim wording: a month identifier in
YYYY-MM form with a zero-padded two-digit month field. -/
def monthIdOf (y m : Nat) : String :=
  toString y ++ "-" ++ format02 m

/-! ### Concrete directories, oracles and responses used in witnesses
and counterexamples -/

/-- An empty month directory. -/
def fsEmpty : FS := fun _ => none

/-- A month directory already holding a 5-byte a.zip. -/
def fsOneA : FS := fun n => if n = "a.zip" then some 5 else none

/-- Every round lists only a.zip and every transfer fails. -/
def oOneZip : Nat → RoundOracle :=
  fun _ => ⟨["a.zip"], fun _ => none, ["a.zip"]⟩

/-- Every round lists a.zip and b.zip and every transfer fails. -/
def oTwoZip : Nat → RoundOracle :=
  fun _ => ⟨["a.zip", "b.zip"], fun _ => none, ["a.zip", "b.zip"]⟩

/-- Round 1 transfers a.zip successfully but fails b.zip; every later
round transfers successfully. -/
def oBLate : Nat → RoundOracle := fun r =>
  if r = 1 then
    ⟨["a.zip", "b.zip"],
      fun n => if n = "a.zip" then some 10 else none,
      ["a.zip", "b.zip"]⟩
  else ⟨["a.zip", "b.zip"], fun _ => some 10, ["a.zip", "b.zip"]⟩

/-- A finder network whose first request fails and whose second
request would succeed. -/
def netFailFirst : Nat → Except Unit (List DavEntry) := fun k =>
  if k = 0 then .error () else .ok [⟨some "2024-01", some 100⟩]

/-- A sample finder response: one fresh month, one stale month, a
non-month folder, a file, and an entry without an href. -/
def entriesSample : List DavEntry :=
  [⟨some "/webdav/Dados/Cadastros/CNPJ/2024-02/", some 95⟩,
   ⟨some "/webdav/Dados/Cadastros/CNPJ/2023-01/", some 10⟩,
   ⟨some "/webdav/Dados/Cadastros/CNPJ/extras/", some 99⟩,
   ⟨some "/webdav/Dados/Cadastros/CNPJ/readme.txt", some 99⟩,
   ⟨none, some 99⟩]

/-- A finder network answering the first request with
entriesSample. -/
def netSample : Nat → Except Unit (List DavEntry) := fun k =>
  if k = 0 then .ok entriesSample else .error ()

/-! ## Helper lemmas -/

theorem fetchAttempt_fail_none (file : Option Nat) (ev : FetchEvent)
    (h : (fetchAttempt file ev).2 = false) :
    (fetchAttempt file ev).1 = none := by
  by_cases hb : (fetchAttemptBody file ev).2 = true
  · simp [fetchAttempt, hb] at h
  · simp [fetchAttempt, hb]

theorem fetchLoop_fail_none (events : Nat → FetchEvent) :
    ∀ fuel attempt file, 1 ≤ fuel →
      (fetchLoop events file attempt fuel).success = false →
      (fetchLoop events file attempt fuel).file = none := by
  intro fuel
  induction fuel with
  | zero => omega
  | succ n ih =>
    intro attempt file _ hfail
    by_cases hs : (fetchAttempt file (events attempt)).2 = true
    · simp only [fetchLoop, hs, if_true] at hfail
      exact absurd hfail (by simp)
    · have hs2 : (fetchAttempt file (events attempt)).2 = false := by
        simpa using hs
      rcases Nat.eq_zero_or_pos n with hn | hn
      · subst hn
        simp only [fetchLoop, hs2] at hfail ⊢
        exact fetchAttempt_fail_none _ _ hs2
      · have hn0 : ¬ n = 0 := by omega
        simp only [fetchLoop, hs2, hn0, if_false, Bool.false_eq_true] at hfail ⊢
        exact ih (attempt + 1) _ (by omega) hfail

theorem listLoop_waits_get (month : String) (events : Nat → ListEvent) :
    ∀ fuel attempt i,
      ∀ h : i < (listLoop month events attempt fuel).waits.length,
      ((listLoop month events attempt fuel).waits)[i] =
        3 * (attempt + i) ^ 2 := by
  intro fuel
  induction fuel with
  | zero => intro attempt i h; simp [listLoop] at h
  | succ n ih =>
    intro attempt i h
    rcases ha : listAttempt (events attempt) with _ | zips
    · by_cases hn : n = 0
      · subst hn; simp [listLoop, ha] at h
      · simp only [listLoop, ha, hn, if_false] at h ⊢
        match i with
        | 0 => simp
        | i + 1 =>
          simp only [List.getElem_cons_succ]
          have hlt : i < (listLoop month events (attempt + 1) n).waits.length := by
            simpa using h
          have hih := ih (attempt + 1) i hlt
          have harith : attempt + 1 + i = attempt + (i + 1) := by omega
          rw [harith] at hih
          exact hih
    · simp [listLoop, ha] at h

theorem listLoop_attempts (month : String) (events : Nat → ListEvent) :
    ∀ fuel attempt, 1 ≤ fuel →
      (listLoop month events attempt fuel).attempts =
        (listLoop month events attempt fuel).waits.length + 1 := by
  intro fuel
  induction fuel with
  | zero => omega
  | succ n ih =>
    intro attempt _
    rcases ha : listAttempt (events attempt) with _ | zips
    · by_cases hn : n = 0
      · subst hn; simp [listLoop, ha]
      · simp only [listLoop, ha, hn, if_false, List.length_cons]
        rw [ih (attempt + 1) (by omega)]
    · simp [listLoop, ha]

theorem fetchLoop_waits_get (events : Nat → FetchEvent) :
    ∀ fuel attempt file i,
      ∀ h : i < (fetchLoop events file attempt fuel).waits.length,
      ((fetchLoop events file attempt fuel).waits)[i] =
        3 * (attempt + i) ^ 2 := by
  intro fuel
  induction fuel with
  | zero => intro attempt file i h; simp [fetchLoop] at h
  | succ n ih =>
    intro attempt file i h
    by_cases hs : (fetchAttempt file (events attempt)).2 = true
    · simp [fetchLoop, hs] at h
    · have hs2 : (fetchAttempt file (events attempt)).2 = false := by
        simpa using hs
      by_cases hn : n = 0
      · subst hn; simp [fetchLoop, hs2] at h
      · simp only [fetchLoop, hs2, hn, if_false, Bool.false_eq_true] at h ⊢
        match i with
        | 0 => simp
        | i + 1 =>
          simp only [List.getElem_cons_succ]
          have hlt : i < (fetchLoop events
              (fetchAttempt file (events attempt)).1 (attempt + 1)
              n).waits.length := by
            simpa using h
          have hih := ih (attempt + 1) _ i hlt
          have harith : attempt + 1 + i = attempt + (i + 1) := by omega
          rw [harith] at hih
          exact hih

theorem fetchLoop_attempts (events : Nat → FetchEvent) :
    ∀ fuel attempt file, 1 ≤ fuel →
      (fetchLoop events file attempt fuel).attempts =
        (fetchLoop events file attempt fuel).waits.length + 1 := by
  intro fuel
  induction fuel with
  | zero => omega
  | succ n ih =>
    intro attempt file _
    by_cases hs : (fetchAttempt file (events attempt)).2 = true
    · simp [fetchLoop, hs]
    · have hs2 : (fetchAttempt file (events attempt)).2 = false := by
        simpa using hs
      by_cases hn : n = 0
      · subst hn; simp [fetchLoop, hs2]
      · simp only [fetchLoop, hs2, hn, if_false, Bool.false_eq_true,
          List.length_cons]
        rw [ih (attempt + 1) _ (by omega)]

theorem lexLe_trans : ∀ a b c : List Char,
    lexLe a b = true → lexLe b c = true → lexLe a c = true := by
  intro a
  induction a with
  | nil => intro b c _ _; rfl
  | cons x xs ih =>
    intro b c h1 h2
    cases b with
    | nil => simp [lexLe] at h1
    | cons y ys =>
      cases c with
      | nil => simp [lexLe] at h2
      | cons z zs =>
        simp only [lexLe] at h1 h2 ⊢
        rcases Nat.lt_trichotomy x.toNat y.toNat with hxy | hxy | hxy
        · rcases Nat.lt_trichotomy y.toNat z.toNat with hyz | hyz | hyz
          · simp [show x.toNat < z.toNat by omega]
          · simp [show x.toNat < z.toNat by omega]
          · simp [show ¬ y.toNat < z.toNat by omega, hyz] at h2
        · rcases Nat.lt_trichotomy y.toNat z.toNat with hyz | hyz | hyz
          · simp [show x.toNat < z.toNat by omega]
          · simp only [show ¬ x.toNat < y.toNat by omega, if_false,
              show ¬ y.toNat < x.toNat by omega] at h1
            simp only [show ¬ y.toNat < z.toNat by omega, if_false,
              show ¬ z.toNat < y.toNat by omega] at h2
            simp only [show ¬ x.toNat < z.toNat by omega, if_false,
              show ¬ z.toNat < x.toNat by omega]
            exact ih ys zs h1 h2
          · simp [show ¬ y.toNat < z.toNat by omega, hyz] at h2
        · simp [show ¬ x.toNat < y.toNat by omega, hxy] at h1

theorem lexLe_total : ∀ a b : List Char,
    (lexLe a b || lexLe b a) = true := by
  intro a
  induction a with
  | nil => intro b; simp [lexLe]
  | cons x xs ih =>
    intro b
    cases b with
    | nil => simp [lexLe]
    | cons y ys =>
      simp only [lexLe]
      rcases Nat.lt_trichotomy x.toNat y.toNat with h | h | h
      · simp [h]
      · simp only [show ¬ x.toNat < y.toNat by omega, if_false,
          show ¬ y.toNat < x.toNat by omega]
        exact ih ys
      · simp [h, show ¬ x.toNat < y.toNat by omega]

theorem monthPair_eq_some (e : DavEntry) (name : String) (t : Int) :
    monthPair e = some (name, t) ↔
      ∃ h, e.href = some h ∧ e.lastModified = some t ∧
        hrefName h = name ∧ is_month_folder name = true := by
  rcases e with ⟨href, lm⟩
  cases href with
  | none => simp [monthPair]
  | some h =>
    cases lm with
    | none => simp [monthPair]
    | some lm =>
      simp only [monthPair]
      by_cases hm : is_month_folder (hrefName h) = true
      · rw [if_pos hm]
        simp only [Option.some.injEq, Prod.mk.injEq]
        constructor
        · rintro ⟨rfl, rfl⟩
          exact ⟨h, rfl, rfl, rfl, hm⟩
        · rintro ⟨h2, hh2, hlm, hname, _⟩
          subst hh2
          subst hlm
          exact ⟨hname, rfl⟩
      · rw [if_neg hm]
        constructor
        · intro hcon; cases hcon
        · rintro ⟨h2, hh2, _, rfl, hmf⟩
          injection hh2 with hh3
          subst hh3
          exact absurd hmf hm

theorem parseFold_eq (entries : List DavEntry) :
    ∀ d : List (String × Int),
      (∀ k ∈ d.map Prod.fst,
        k ∉ (entries.filterMap monthPair).map Prod.fst) →
      ((entries.filterMap monthPair).map Prod.fst).Nodup →
      entries.foldl
        (fun d e =>
          match monthPair e with
          | some kv => dictInsert d kv.1 kv.2
          | none => d) d
        = d ++ entries.filterMap monthPair := by
  induction entries with
  | nil => intro d _ _; simp
  | cons e rest ih =>
    intro d hdisj hnodup
    rcases hp : monthPair e with _ | kv
    · have hfm : (e :: rest).filterMap monthPair =
          rest.filterMap monthPair := by
        simp [List.filterMap_cons, hp]
      rw [hfm] at hdisj hnodup ⊢
      simpa only [List.foldl_cons, hp] using ih d hdisj hnodup
    · have hfm : (e :: rest).filterMap monthPair =
          kv :: rest.filterMap monthPair := by
        simp [List.filterMap_cons, hp]
      rw [hfm] at hdisj hnodup
      have hkey : kv.1 ∉ (rest.filterMap monthPair).map Prod.fst := by
        have := hnodup
        rw [List.map_cons, List.nodup_cons] at this
        exact this.1
      have hnotin : d.any (fun p => p.1 == kv.1) = false := by
        rw [List.any_eq_false]
        intro p hp2
        have hk := hdisj p.1 (List.mem_map_of_mem Prod.fst hp2)
        simp only [List.map_cons, List.mem_cons] at hk
        push_neg at hk
        simpa using hk.1
      have hins : dictInsert d kv.1 kv.2 = d ++ [kv] := by
        unfold dictInsert
        rw [hnotin]
        simp
      have hdisj2 : ∀ k ∈ (d ++ [kv]).map Prod.fst,
          k ∉ (rest.filterMap monthPair).map Prod.fst := by
        intro k hk
        simp only [List.map_append, List.mem_append, List.map_cons,
          List.mem_singleton, List.map_nil] at hk
        rcases hk with hk | hk
        · intro hmem
          have := hdisj k hk
          simp only [List.map_cons, List.mem_cons] at this
          push_neg at this
          exact this.2 hmem
        · subst hk
          exact hkey
      have hnodup2 : ((rest.filterMap monthPair).map Prod.fst).Nodup := by
        rw [List.map_cons, List.nodup_cons] at hnodup
        exact hnodup.2
      have hrec := ih (d ++ [kv]) hdisj2 hnodup2
      simp only [List.foldl_cons, hp, hins, hrec, hfm,
        List.append_assoc, List.singleton_append]

theorem parseMonthFolders_eq (entries : List DavEntry)
    (h : ((entries.filterMap monthPair).map Prod.fst).Nodup) :
    parseMonthFolders entries = entries.filterMap monthPair := by
  have := parseFold_eq entries [] (by simp) h
  simpa [parseMonthFolders] using this

theorem setFile_apply (fs : FS) (n : String) (s : Nat) (m : String) :
    setFile fs n s m = if m = n then some s else fs m := rfl

theorem removeFile_apply (fs : FS) (n : String) (m : String) :
    removeFile fs n m = if m = n then none else fs m := rfl

theorem present_congr {fs1 fs2 : FS} (n : String)
    (h : fs1 n = fs2 n) : present fs1 n = present fs2 n := by
  unfold present
  rw [h]

theorem partitionZips_eq (fs : FS) (zips : List String) :
    partitionZips fs zips =
      (zips.filter (fun n => present fs n),
       zips.filter (fun n => !present fs n)) := by
  induction zips with
  | nil => rfl
  | cons n rest ih =>
    simp only [partitionZips, ih, List.filter_cons]
    by_cases h : present fs n <;> simp [h]

theorem runTasks_not_mem (fetch : String → Option Nat) :
    ∀ ts fs m, m ∉ ts → (runTasks fetch fs ts).1 m = fs m := by
  intro ts
  induction ts with
  | nil => intro fs m _; rfl
  | cons n rest ih =>
    intro fs m hm
    simp only [List.mem_cons, not_or] at hm
    rcases hf : fetch n with _ | s
    · simp only [runTasks, hf]
      rw [ih _ m hm.2, removeFile_apply, if_neg hm.1]
    · simp only [runTasks, hf]
      rw [ih _ m hm.2, setFile_apply, if_neg hm.1]

theorem present_removeFile_self (fs : FS) (n : String) :
    present (removeFile fs n) n = false := by
  unfold present
  rw [removeFile_apply, if_pos rfl]

theorem present_removeFile_ne (fs : FS) (n m : String) (h : m ≠ n) :
    present (removeFile fs n) m = present fs m := by
  unfold present
  rw [removeFile_apply, if_neg h]

theorem present_setFile_ne (fs : FS) (n : String) (s : Nat)
    (m : String) (h : m ≠ n) :
    present (setFile fs n s) m = present fs m := by
  unfold present
  rw [setFile_apply, if_neg h]

theorem runTasks_fail_not_present (fetch : String → Option Nat)
    (m : String) (hm : fetch m = none) :
    ∀ ts fs, present fs m = false →
      present (runTasks fetch fs ts).1 m = false := by
  intro ts
  induction ts with
  | nil => intro fs h; exact h
  | cons n rest ih =>
    intro fs h
    rcases hf : fetch n with _ | s
    · simp only [runTasks, hf]
      apply ih
      by_cases hmn : m = n
      · subst hmn
        exact present_removeFile_self fs m
      · rw [present_removeFile_ne fs n m hmn]
        exact h
    · simp only [runTasks, hf]
      apply ih
      by_cases hmn : m = n
      · rw [hmn] at hm
        rw [hm] at hf
        cases hf
      · rw [present_setFile_ne fs n s m hmn]
        exact h

theorem download_once_tasks (o : RoundOracle) (fs : FS) :
    (download_once o fs).tasks =
      o.listing.filter (fun n => !present fs n) := by
  show (partitionZips fs o.listing).2 = _
  rw [partitionZips_eq]

theorem download_once_skipped (o : RoundOracle) (fs : FS) :
    (download_once o fs).skipped =
      o.listing.filter (fun n => present fs n) := by
  show (partitionZips fs o.listing).1 = _
  rw [partitionZips_eq]

theorem download_once_fs_of_present (o : RoundOracle) (fs : FS)
    (m : String) (hp : present fs m = true) :
    (download_once o fs).fs m = fs m := by
  show (runTasks o.fetch fs (partitionZips fs o.listing).2).1 m = fs m
  apply runTasks_not_mem
  rw [partitionZips_eq]
  intro hmem
  have := (List.mem_filter.mp hmem).2
  rw [hp] at this
  simp at this

theorem download_once_fs_of_fail (o : RoundOracle) (fs : FS)
    (m : String) (hf : o.fetch m = none)
    (hp : present fs m = false) :
    present (download_once o fs).fs m = false := by
  show present
      (runTasks o.fetch fs (partitionZips fs o.listing).2).1 m = false
  exact runTasks_fail_not_present o.fetch m hf _ fs hp

theorem monthLoop_trace_shape (month : String) (o : Nat → RoundOracle) :
    ∀ fuel fs dlAcc round,
      ∀ r ∈ (monthLoop month o fs dlAcc round fuel).trace,
        r.tasks = r.listing.filter (fun n => !present r.fsBefore n) ∧
        r.skipped = r.listing.filter (fun n => present r.fsBefore n) := by
  intro fuel
  induction fuel with
  | zero => intro fs dlAcc round r hr; simp [monthLoop] at hr
  | succ n ih =>
    intro fs dlAcc round r hr
    simp only [monthLoop] at hr
    by_cases hm : (find_missing_zips (o round).recheck
        (download_once (o round) fs).fs).isEmpty = true
    · rw [if_pos hm] at hr
      dsimp only at hr
      simp only [List.mem_singleton] at hr
      subst hr
      exact ⟨download_once_tasks _ _, download_once_skipped _ _⟩
    · rw [if_neg hm] at hr
      dsimp only at hr
      simp only [List.mem_cons] at hr
      rcases hr with rfl | hr
      · exact ⟨download_once_tasks _ _, download_once_skipped _ _⟩
      · exact ih _ _ _ r hr

theorem monthLoop_preserves (month : String) (o : Nat → RoundOracle)
    (m : String) :
    ∀ fuel fs dlAcc round, present fs m = true →
      ((∀ r ∈ (monthLoop month o fs dlAcc round fuel).trace,
          m ∉ r.tasks) ∧
        (monthLoop month o fs dlAcc round fuel).fs m = fs m) := by
  intro fuel
  induction fuel with
  | zero =>
    intro fs dlAcc round _
    exact ⟨by simp [monthLoop], rfl⟩
  | succ n ih =>
    intro fs dlAcc round hp
    have htask : m ∉ (download_once (o round) fs).tasks := by
      rw [download_once_tasks]
      intro hmem
      have := (List.mem_filter.mp hmem).2
      rw [hp] at this
      simp at this
    have hfs := download_once_fs_of_present (o round) fs m hp
    have hp2 : present (download_once (o round) fs).fs m = true := by
      rw [present_congr m hfs]
      exact hp
    simp only [monthLoop]
    by_cases hm : (find_missing_zips (o round).recheck
        (download_once (o round) fs).fs).isEmpty = true
    · rw [if_pos hm]
      dsimp only
      refine ⟨?_, hfs⟩
      intro r hr
      simp only [List.mem_singleton] at hr
      subst hr
      exact htask
    · rw [if_neg hm]
      dsimp only
      have hrec := ih (download_once (o round) fs).fs
        (dlAcc ++ (download_once (o round) fs).downloaded)
        (round + 1) hp2
      refine ⟨?_, by rw [hrec.2, hfs]⟩
      intro r hr
      simp only [List.mem_cons] at hr
      rcases hr with rfl | hr
      · exact htask
      · exact hrec.1 r hr

theorem monthLoop_never (month : String) (o : Nat → RoundOracle)
    (m : String) (hfail : ∀ r, (o r).fetch m = none)
    (hmem : ∀ r, 1 ≤ r → r ≤ 5 → m ∈ (o r).recheck) :
    ∀ fuel round fs dlAcc, round + fuel = 6 → 1 ≤ round →
      present fs m = false →
      (monthLoop month o fs dlAcc round fuel).outcome =
        .incompleteErr month 5 ∧
      (monthLoop month o fs dlAcc round fuel).trace.length = fuel := by
  intro fuel
  induction fuel with
  | zero => intro round fs dlAcc _ _ _; exact ⟨rfl, rfl⟩
  | succ n ih =>
    intro round fs dlAcc hsum hr1 habs
    have habs2 := download_once_fs_of_fail (o round) fs m
      (hfail round) habs
    have hmm : m ∈ find_missing_zips (o round).recheck
        (download_once (o round) fs).fs := by
      rw [find_missing_zips, List.mem_filter]
      refine ⟨hmem round hr1 (by omega), ?_⟩
      rw [habs2]
      rfl
    have hne : ¬ ((find_missing_zips (o round).recheck
        (download_once (o round) fs).fs).isEmpty = true) := by
      intro hcon
      rw [List.isEmpty_iff] at hcon
      rw [hcon] at hmm
      cases hmm
    have hrec := ih (round + 1) (download_once (o round) fs).fs
      (dlAcc ++ (download_once (o round) fs).downloaded)
      (by omega) (by omega) habs2
    simp only [monthLoop]
    rw [if_neg hne]
    dsimp only
    refine ⟨hrec.1, ?_⟩
    rw [List.length_cons, hrec.2]

theorem monthLoop_present_all (month : String) (o : Nat → RoundOracle)
    (m : String) :
    ∀ fuel fs dlAcc round, present fs m = true →
      ∀ r ∈ (monthLoop month o fs dlAcc round fuel).trace,
        present r.fsBefore m = true := by
  intro fuel
  induction fuel with
  | zero => intro fs dlAcc round _ r hr; simp [monthLoop] at hr
  | succ n ih =>
    intro fs dlAcc round hp r hr
    have hfs := download_once_fs_of_present (o round) fs m hp
    have hp2 : present (download_once (o round) fs).fs m = true := by
      rw [present_congr m hfs]
      exact hp
    simp only [monthLoop] at hr
    by_cases hm : (find_missing_zips (o round).recheck
        (download_once (o round) fs).fs).isEmpty = true
    · rw [if_pos hm] at hr
      dsimp only at hr
      simp only [List.mem_singleton] at hr
      subst hr
      exact hp
    · rw [if_neg hm] at hr
      dsimp only at hr
      simp only [List.mem_cons] at hr
      rcases hr with rfl | hr
      · exact hp
      · exact ih _ _ _ hp2 r hr

theorem monthLoop_skip_no_later (month : String) (o : Nat → RoundOracle)
    (m : String) :
    ∀ fuel fs dlAcc round l1 r l2,
      (monthLoop month o fs dlAcc round fuel).trace = l1 ++ r :: l2 →
      m ∈ r.skipped →
      ∀ r2 ∈ r :: l2, m ∉ r2.tasks := by
  intro fuel
  induction fuel with
  | zero =>
    intro fs dlAcc round l1 r l2 htr _
    simp only [monthLoop] at htr
    exact absurd htr.symm (List.append_ne_nil_of_right_ne_nil l1
      (List.cons_ne_nil r l2))
  | succ n ih =>
    intro fs dlAcc round l1 r l2 htr hskip r2 hr2
    simp only [monthLoop] at htr
    by_cases hm : (find_missing_zips (o round).recheck
        (download_once (o round) fs).fs).isEmpty = true
    · rw [if_pos hm] at htr
      dsimp only at htr
      cases l1 with
      | nil =>
        rw [List.nil_append, List.cons.injEq] at htr
        obtain ⟨hr0, hl2⟩ := htr
        subst hr0
        have hpres : present fs m = true := by
          rw [download_once_skipped] at hskip
          exact (List.mem_filter.mp hskip).2
        simp only [← hl2, List.mem_singleton] at hr2
        subst hr2
        rw [download_once_tasks]
        intro hmem
        have := (List.mem_filter.mp hmem).2
        rw [hpres] at this
        simp at this
      | cons a l1t =>
        rw [List.cons_append, List.cons.injEq] at htr
        exact absurd htr.2.symm (List.append_ne_nil_of_right_ne_nil l1t
          (List.cons_ne_nil r l2))
    · rw [if_neg hm] at htr
      dsimp only at htr
      cases l1 with
      | nil =>
        rw [List.nil_append, List.cons.injEq] at htr
        obtain ⟨hr0, hl2⟩ := htr
        subst hr0
        have hpres : present fs m = true := by
          rw [download_once_skipped] at hskip
          exact (List.mem_filter.mp hskip).2
        have hfs := download_once_fs_of_present (o round) fs m hpres
        have hp2 : present (download_once (o round) fs).fs m = true := by
          rw [present_congr m hfs]
          exact hpres
        simp only [List.mem_cons] at hr2
        rcases hr2 with rfl | hr2
        · rw [download_once_tasks]
          intro hmem
          have := (List.mem_filter.mp hmem).2
          rw [hpres] at this
          simp at this
        · rw [← hl2] at hr2
          exact (monthLoop_preserves month o m n
            (download_once (o round) fs).fs
            (dlAcc ++ (download_once (o round) fs).downloaded)
            (round + 1) hp2).1 r2 hr2
      | cons a l1t =>
        rw [List.cons_append, List.cons.injEq] at htr
        exact ih _ _ _ l1t r l2 htr.2 hskip r2 hr2

theorem getLast?_cons_of_some {α : Type} (a x : α) (t : List α)
    (h : t.getLast? = some x) : (a :: t).getLast? = some x := by
  cases t with
  | nil => cases h
  | cons b t2 =>
    rw [List.getLast?_cons_cons]
    exact h

theorem monthLoop_ok_lists (month : String) (o : Nat → RoundOracle) :
    ∀ fuel fs dlAcc round dl sk,
      (monthLoop month o fs dlAcc round fuel).outcome = .ok dl sk →
      dl = dlAcc ++ ((monthLoop month o fs dlAcc round fuel).trace.map
        (fun r => r.downloaded)).flatten ∧
      ((monthLoop month o fs dlAcc round fuel).trace.getLast?.map
        (fun r => r.skipped)) = some sk := by
  intro fuel
  induction fuel with
  | zero =>
    intro fs dlAcc round dl sk h
    simp [monthLoop] at h
  | succ n ih =>
    intro fs dlAcc round dl sk h
    simp only [monthLoop] at h ⊢
    by_cases hm : (find_missing_zips (o round).recheck
        (download_once (o round) fs).fs).isEmpty = true
    · rw [if_pos hm] at h ⊢
      dsimp only at h ⊢
      rw [MonthOutcome.ok.injEq] at h
      simp [h.1.symm, h.2]
    · rw [if_neg hm] at h ⊢
      dsimp only at h ⊢
      have hih := ih (download_once (o round) fs).fs
        (dlAcc ++ (download_once (o round) fs).downloaded)
        (round + 1) dl sk h
      constructor
      · rw [List.map_cons, List.flatten_cons, ← List.append_assoc]
        exact hih.1
      · obtain ⟨r0, hr0, hfr0⟩ := Option.map_eq_some'.mp hih.2
        rw [getLast?_cons_of_some _ r0 _ hr0]
        simp [hfr0]

/-! ## Claim theorems -/

/-- C9: a remote entry name is selected as an expected file iff its
lowercased form ends with ".zip" and its lowercased form starts with
one of the four fixed dataset name beginnings, and on a listing
containing exactly estabelecimentos1.zip, readme.txt, empresas2.zip
and notes.zip the selected set is exactly the two matching names. -/
theorem C9_relevance_filter :
    (∀ name names, name ∈ selectZipNames names ↔
      name ∈ names ∧ endsWithStr (lowerStr name) ".zip" = true ∧
        (startsWithStr (lowerStr name) "estabelecimentos" = true ∨
         startsWithStr (lowerStr name) "empresas" = true ∨
         startsWithStr (lowerStr name) "cnae" = true ∨
         startsWithStr (lowerStr name) "municipios" = true)) ∧
    selectZipNames
        ["estabelecimentos1.zip", "readme.txt", "empresas2.zip",
          "notes.zip"]
      = ["estabelecimentos1.zip", "empresas2.zip"] := by
  refine ⟨fun name names => ?_, by decide⟩
  simp only [selectZipNames, List.mem_filter, is_relevant_zip,
    Bool.and_eq_true, Bool.or_eq_true, and_assoc, or_assoc]

/-- C10: get_default_cnpj_month returns the calendar month immediately
before the given one, in YYYY-MM form with a zero-padded two-digit
month field; for January it returns December of the previous year. -/
theorem C10_default_month (y m : Nat) (h1 : 1 ≤ m) (h2 : m ≤ 12) :
    get_default_cnpj_month y m =
      monthIdOf (prevCalendarMonth y m).1 (prevCalendarMonth y m).2 ∧
    (format02 (prevCalendarMonth y m).2).length = 2 := by
  interval_cases m <;>
    exact ⟨rfl, by norm_num [prevCalendarMonth]; decide⟩

/-- Witness for C10 at a January date. -/
theorem C10_default_month_witness :
    get_default_cnpj_month 2024 1 =
      monthIdOf (prevCalendarMonth 2024 1).1
        (prevCalendarMonth 2024 1).2 ∧
    (format02 (prevCalendarMonth 2024 1).2).length = 2 :=
  C10_default_month 2024 1 (by decide) (by decide)

/-- C3: a failed transfer attempt — transport failure before or during
the stream, or a content type without "zip" — always leaves the target
path empty, and when the whole transfer fails (the last error
propagates to the caller) no file remains at the target path. -/
theorem C3_corruption_guard :
    (∀ file ev, (fetchAttempt file ev).2 = false →
        (fetchAttempt file ev).1 = none) ∧
    (∀ events file, (download_file events file).success = false →
        (download_file events file).file = none) := by
  refine ⟨fetchAttempt_fail_none, fun events file h => ?_⟩
  exact fetchLoop_fail_none events 3 1 file (by omega) h

/-- Witness for C3: a transport failure on every attempt, starting
from a stale 5-byte file. -/
theorem C3_corruption_guard_witness :
    (fetchAttempt (some 5) FetchEvent.noConn).1 = none ∧
    (download_file (fun _ => FetchEvent.noConn) (some 5)).file =
      none :=
  ⟨C3_corruption_guard.1 (some 5) FetchEvent.noConn (by decide),
   C3_corruption_guard.2 (fun _ => FetchEvent.noConn) (some 5)
     (by decide)⟩

/-- C5: a successful listing page with zero relevant entries is
handled exactly like a transport failure, and when every one of the 5
attempts yields such an empty page the listing fails with the error
naming the month after exactly 5 attempts and 4 backoff waits. -/
theorem C5_empty_listing_is_failure :
    (∀ hrefs, selectZipNames (hrefs.map hrefName) = [] →
        listAttempt (.page hrefs) = listAttempt .err) ∧
    (∀ month events,
        (∀ k, 1 ≤ k → k ≤ 5 → ∃ hrefs, events k = .page hrefs ∧
            selectZipNames (hrefs.map hrefName) = []) →
        list_month_zips month events =
          ⟨.exhausted month, [3, 12, 27, 48], 5⟩) := by
  refine ⟨fun hrefs h => by simp [listAttempt, h], fun month events h => ?_⟩
  obtain ⟨h1, e1, s1⟩ := h 1 (by omega) (by omega)
  obtain ⟨h2, e2, s2⟩ := h 2 (by omega) (by omega)
  obtain ⟨h3, e3, s3⟩ := h 3 (by omega) (by omega)
  obtain ⟨h4, e4, s4⟩ := h 4 (by omega) (by omega)
  obtain ⟨h5, e5, s5⟩ := h 5 (by omega) (by omega)
  simp [list_month_zips, listLoop, listAttempt, e1, s1, e2, s2, e3,
    s3, e4, s4, e5, s5]

/-- Witness for C5: every attempt answers with a page holding only
readme.txt. -/
theorem C5_empty_listing_is_failure_witness :
    listAttempt (.page ["readme.txt"]) = listAttempt .err ∧
    list_month_zips "2024-01" (fun _ => .page ["readme.txt"]) =
      ⟨.exhausted "2024-01", [3, 12, 27, 48], 5⟩ :=
  ⟨C5_empty_listing_is_failure.1 ["readme.txt"] (by decide),
   C5_empty_listing_is_failure.2 "2024-01" _
     (fun k _ _ => ⟨["readme.txt"], rfl, by decide⟩)⟩

/-- C8: in both the listing retry loop and the transfer retry loop the
i-th recorded wait (the one after failed attempt i+1 and before
attempt i+2) is 3 * (i+1)^2 time-units — so 3 before attempt 2 and 12
before attempt 3 — and the attempt count always exceeds the wait count
by one, so no wait follows the final attempt. -/
theorem C8_backoff_law :
    (∀ month events i,
        ∀ h : i < (list_month_zips month events).waits.length,
        ((list_month_zips month events).waits)[i] = 3 * (i + 1) ^ 2) ∧
    (∀ month events, (list_month_zips month events).attempts =
        (list_month_zips month events).waits.length + 1) ∧
    (∀ events file i,
        ∀ h : i < (download_file events file).waits.length,
        ((download_file events file).waits)[i] = 3 * (i + 1) ^ 2) ∧
    (∀ events file, (download_file events file).attempts =
        (download_file events file).waits.length + 1) := by
  refine ⟨fun month events i h => ?_, fun month events => ?_,
    fun events file i h => ?_, fun events file => ?_⟩
  · simp only [list_month_zips] at h ⊢
    have hih := listLoop_waits_get month events 5 1 i h
    have harith : 1 + i = i + 1 := by omega
    rw [harith] at hih
    exact hih
  · exact listLoop_attempts month events 5 1 (by omega)
  · simp only [download_file] at h ⊢
    have hih := fetchLoop_waits_get events 3 1 file i h
    have harith : 1 + i = i + 1 := by omega
    rw [harith] at hih
    exact hih
  · exact fetchLoop_attempts events 3 1 file (by omega)

/-- Witness for C8: a listing failing all 5 attempts shows waits 3 and
12 before attempts 2 and 3, and a transfer failing all 3 attempts has
one more attempt than waits. -/
theorem C8_backoff_law_witness :
    ((list_month_zips "2024-01" (fun _ => ListEvent.err)).waits).get
        ⟨0, by decide⟩ = 3 ∧
    ((list_month_zips "2024-01" (fun _ => ListEvent.err)).waits).get
        ⟨1, by decide⟩ = 12 ∧
    (download_file (fun _ => FetchEvent.noConn) none).attempts =
      (download_file (fun _ => FetchEvent.noConn) none).waits.length
        + 1 := by
  refine ⟨?_, ?_, C8_backoff_law.2.2.2 (fun _ => FetchEvent.noConn) none⟩
  · have := C8_backoff_law.1 "2024-01" (fun _ => ListEvent.err) 0
      (by decide)
    simpa using this
  · have := C8_backoff_law.1 "2024-01" (fun _ => ListEvent.err) 1
      (by decide)
    simpa using this

/-- C6 counterexample: the finder's directory listing does not retry.
With a network whose first request fails and whose second request
would succeed, discovery surfaces the failure after exactly one
request, instead of retrying up to a budget and succeeding. -/
theorem C6_no_retry_counterexample :
    (get_updated_months netFailFirst 100 50).result = .error () ∧
    (get_updated_months netFailFirst 100 50).calls = 1 ∧
    netFailFirst 1 = .ok [⟨some "2024-01", some 100⟩] :=
  ⟨rfl, rfl, rfl⟩

/-- C6 amended: the month-discovery listing issues exactly one
directory-listing request, with no retry and no backoff, and a failure
of that single request propagates unmodified out of discovery. -/
theorem C6_single_listing_attempt
    (net : Nat → Except Unit (List DavEntry)) (now daysWindow : Int) :
    (get_updated_months net now daysWindow).calls = 1 ∧
    (∀ e, net 0 = .error e →
      (get_updated_months net now daysWindow).result = .error e) := by
  unfold get_updated_months list_month_folders
  rcases h : net 0 with e | entries
  · simp [h]
  · simp [h]

/-- Witness for the amended C6 on the failing network. -/
theorem C6_single_listing_attempt_witness :
    (get_updated_months netFailFirst 100 50).calls = 1 ∧
    (get_updated_months netFailFirst 100 50).result = .error () :=
  ⟨(C6_single_listing_attempt netFailFirst 100 50).1,
   (C6_single_listing_attempt netFailFirst 100 50).2 () rfl⟩

/-- C7: when the single listing request succeeds and the month-shaped
folder names are pairwise distinct, get_updated_months returns (with
no error, whatever malformed or non-month entries the response holds)
the ascending-sorted list containing exactly the basenames of shape
NNNN-NN whose last-modified instant is at least now minus the
window. -/
theorem C7_updated_months (net : Nat → Except Unit (List DavEntry))
    (entries : List DavEntry) (now daysWindow : Int)
    (hnet : net 0 = Except.ok entries)
    (hnodup : ((entries.filterMap monthPair).map Prod.fst).Nodup) :
    ∃ l, (get_updated_months net now daysWindow).result = Except.ok l ∧
      List.Pairwise (fun a b => lexLe a.data b.data = true) l ∧
      ∀ name, name ∈ l ↔
        ∃ e ∈ entries, ∃ h t, e.href = some h ∧
          e.lastModified = some t ∧ hrefName h = name ∧
          is_month_folder name = true ∧
          cutoff_datetime now daysWindow ≤ t := by
  have hlist : list_month_folders net =
      ⟨Except.ok (parseMonthFolders entries), 1⟩ := by
    simp [list_month_folders, hnet]
  have hmonths := parseMonthFolders_eq entries hnodup
  refine ⟨sortStrings ((parseMonthFolders entries).filterMap
      (fun p => if cutoff_datetime now daysWindow ≤ p.2
        then some p.1 else none)), ?_, ?_, ?_⟩
  · simp [get_updated_months, hlist]
  · exact List.sorted_mergeSort
      (fun a b c hab hbc => lexLe_trans a.data b.data c.data hab hbc)
      (fun a b => lexLe_total a.data b.data) _
  · intro name
    rw [sortStrings, List.mem_mergeSort, hmonths, List.mem_filterMap]
    constructor
    · rintro ⟨p, hpmem, hpf⟩
      by_cases hc : cutoff_datetime now daysWindow ≤ p.2
      · rw [if_pos hc] at hpf
        injection hpf with hpf2
        rw [List.mem_filterMap] at hpmem
        obtain ⟨e, hemem, hpair⟩ := hpmem
        obtain ⟨h, hhref, hlm, hname, hshape⟩ :=
          (monthPair_eq_some e p.1 p.2).mp (by simpa using hpair)
        subst hpf2
        exact ⟨e, hemem, h, p.2, hhref, hlm, hname, hshape, hc⟩
      · rw [if_neg hc] at hpf
        cases hpf
    · rintro ⟨e, hemem, h, t, hhref, hlm, hname, hshape, hc⟩
      refine ⟨(name, t), ?_, by simp [hc]⟩
      rw [List.mem_filterMap]
      exact ⟨e, hemem,
        (monthPair_eq_some e name t).mpr ⟨h, hhref, hlm, hname, hshape⟩⟩

/-- Witness for C7 on a sample response holding a fresh month, a stale
month, a non-month folder, a plain file and an href-less entry. -/
theorem C7_updated_months_witness :
    ∃ l, (get_updated_months netSample 100 10).result = Except.ok l ∧
      List.Pairwise (fun a b => lexLe a.data b.data = true) l ∧
      ∀ name, name ∈ l ↔
        ∃ e ∈ entriesSample, ∃ h t, e.href = some h ∧
          e.lastModified = some t ∧ hrefName h = name ∧
          is_month_folder name = true ∧ cutoff_datetime 100 10 ≤ t :=
  C7_updated_months netSample entriesSample 100 10 rfl (by decide)

/-- For an all-present starting directory, the first round dispatches
nothing and download_month returns the whole listing as skipped. -/
theorem download_month_all_present (month : String)
    (o : Nat → RoundOracle) (fs : FS)
    (h1 : ∀ n ∈ (o 1).listing, present fs n = true)
    (h2 : ∀ n ∈ (o 1).recheck, present fs n = true) :
    (download_month month o fs).outcome = .ok [] ((o 1).listing) ∧
    (download_month month o fs).trace.map (fun r => r.tasks) =
      [[]] := by
  have hparts : partitionZips fs (o 1).listing =
      ((o 1).listing, []) := by
    rw [partitionZips_eq]
    rw [Prod.mk.injEq]
    constructor
    · exact List.filter_eq_self.mpr h1
    · rw [List.filter_eq_nil_iff]
      intro a ha
      rw [h1 a ha]
      simp
  have honce : download_once (o 1) fs = ⟨fs, [], (o 1).listing, []⟩ := by
    unfold download_once
    rw [hparts]
    rfl
  have hmiss : find_missing_zips (o 1).recheck fs = [] := by
    rw [find_missing_zips, List.filter_eq_nil_iff]
    intro a ha
    rw [h2 a ha]
    simp
  have hmiss2 : (find_missing_zips (o 1).recheck
      (download_once (o 1) fs).fs).isEmpty = true := by
    rw [honce]
    dsimp only
    rw [hmiss]
    rfl
  unfold download_month
  simp only [monthLoop]
  rw [if_pos hmiss2]
  dsimp only
  rw [honce]
  exact ⟨rfl, rfl⟩

/-- C1: within every round of download_month, the dispatched transfer
tasks are exactly the listed names whose local file is absent or
empty, and the skipped names are exactly the locally present ones;
a file present at the start is never dispatched in any round and its
directory entry is unchanged at the end; a file recorded as skipped in
some round is never dispatched in that round or any later round, even
if re-listed; and when every listed and re-checked name is already
present, the run ends in round 1 with an empty downloaded list, the
whole listing as skipped, and no dispatched task at all. -/
theorem C1_diff_dispatch_skip (month : String) (o : Nat → RoundOracle)
    (fs : FS) :
    (∀ r ∈ (download_month month o fs).trace,
        r.tasks = r.listing.filter (fun n => !present r.fsBefore n) ∧
        r.skipped = r.listing.filter (fun n => present r.fsBefore n)) ∧
    (∀ m, present fs m = true →
        (∀ r ∈ (download_month month o fs).trace, m ∉ r.tasks) ∧
        (download_month month o fs).fs m = fs m) ∧
    (∀ l1 r l2, (download_month month o fs).trace = l1 ++ r :: l2 →
        ∀ m ∈ r.skipped, ∀ r2 ∈ r :: l2, m ∉ r2.tasks) ∧
    ((∀ n ∈ (o 1).listing, present fs n = true) →
     (∀ n ∈ (o 1).recheck, present fs n = true) →
        (download_month month o fs).outcome = .ok [] ((o 1).listing) ∧
        (download_month month o fs).trace.map (fun r => r.tasks) =
          [[]]) :=
  ⟨fun r hr => monthLoop_trace_shape month o 5 fs [] 1 r hr,
   fun m hm => monthLoop_preserves month o m 5 fs [] 1 hm,
   fun l1 r l2 htr m hm r2 hr2 =>
     monthLoop_skip_no_later month o m 5 fs [] 1 l1 r l2 htr hm r2 hr2,
   fun h1 h2 => download_month_all_present month o fs h1 h2⟩

/-- Witness for C1: a directory already holding the only listed file;
the run skips it, dispatches nothing and leaves it untouched. -/
theorem C1_diff_dispatch_skip_witness :
    (download_month "2024-01" oOneZip fsOneA).fs "a.zip" =
      fsOneA "a.zip" ∧
    (download_month "2024-01" oOneZip fsOneA).outcome =
      .ok [] ["a.zip"] ∧
    (download_month "2024-01" oOneZip fsOneA).trace.map
      (fun r => r.tasks) = [[]] ∧
    "a.zip" ∉ (RoundRecord.mk fsOneA ["a.zip"] ["a.zip"] [] [] []).tasks := by
  have hmain := C1_diff_dispatch_skip "2024-01" oOneZip fsOneA
  exact ⟨(hmain.2.1 "a.zip" (by decide)).2,
    (hmain.2.2.2 (by decide) (by decide)).1,
    (hmain.2.2.2 (by decide) (by decide)).2,
    hmain.2.2.1 [] (RoundRecord.mk fsOneA ["a.zip"] ["a.zip"] [] [] [])
      [] rfl "a.zip" (by decide)
      (RoundRecord.mk fsOneA ["a.zip"] ["a.zip"] [] [] [])
      (List.mem_singleton.mpr rfl)⟩

/-- C2 counterexample: the error raised after 5 incomplete rounds does
not carry the number of still-missing files.  Two runs whose final
rounds leave 1 and 2 files missing raise the very same error value
(which interpolates only the month and the round budget), so the
raised error cannot identify the missing count the claim requires. -/
theorem C2_error_lacks_missing_count :
    (download_month "2024-01" oOneZip fsEmpty).outcome =
      (download_month "2024-01" oTwoZip fsEmpty).outcome ∧
    ((download_month "2024-01" oOneZip fsEmpty).trace.getLast?.map
        (fun r => r.missing.length)) = some 1 ∧
    ((download_month "2024-01" oTwoZip fsEmpty).trace.getLast?.map
        (fun r => r.missing.length)) = some 2 := by
  refine ⟨by decide, by decide, by decide⟩

/-- C2 amended: when some file is re-listed by every round's re-check,
every transfer of it fails and it is not present initially,
download_month performs exactly 5 rounds and then raises the error
naming the month and the round budget (but no missing count); no
partial result is returned. -/
theorem C2_hard_failure (month : String) (o : Nat → RoundOracle)
    (fs : FS) (m : String)
    (hmem : ∀ r, 1 ≤ r → r ≤ 5 → m ∈ (o r).recheck)
    (hfail : ∀ r, (o r).fetch m = none)
    (habs : present fs m = false) :
    (download_month month o fs).outcome = .incompleteErr month 5 ∧
    (download_month month o fs).trace.length = 5 :=
  monthLoop_never month o m hfail hmem 5 1 fs [] (by omega)
    (by omega) habs

/-- Witness for the amended C2: the single listed file fails on every
transfer. -/
theorem C2_hard_failure_witness :
    (download_month "2024-01" oOneZip fsEmpty).outcome =
      .incompleteErr "2024-01" 5 ∧
    (download_month "2024-01" oOneZip fsEmpty).trace.length = 5 :=
  C2_hard_failure "2024-01" oOneZip fsEmpty "a.zip"
    (fun r _ _ => by simp [oOneZip]) (fun r => rfl) (by decide)

/-- C4 counterexample: with two listed files, where a.zip transfers in
round 1 and b.zip only in round 2, the returned downloaded list is
[a.zip, b.zip] while the returned skipped list is [a.zip] (the second
round found a.zip present), so a.zip appears in both lists and the
claimed disjoint partition of the expected files fails. -/
theorem C4_lists_not_disjoint :
    (download_month "2024-01" oBLate fsEmpty).outcome =
      .ok ["a.zip", "b.zip"] ["a.zip"] ∧
    "a.zip" ∈ ["a.zip", "b.zip"] ∧ "a.zip" ∈ ["a.zip"] := by
  refine ⟨by decide, by decide, by decide⟩

/-- C4 amended: on success the downloaded list is the concatenation in
round order of the files fetched in every round, while the skipped
list is the present-at-diff list of the final round only (earlier
rounds' skipped lists are overwritten); the two lists need not be
disjoint. -/
theorem C4_result_lists (month : String) (o : Nat → RoundOracle)
    (fs : FS) (dl sk : List String)
    (hok : (download_month month o fs).outcome = .ok dl sk) :
    dl = ((download_month month o fs).trace.map
      (fun r => r.downloaded)).flatten ∧
    (download_month month o fs).trace.getLast?.map
      (fun r => r.skipped) = some sk := by
  have h := monthLoop_ok_lists month o 5 fs [] 1 dl sk hok
  refine ⟨?_, h.2⟩
  rw [h.1]
  rfl

/-- Witness for the amended C4 on the two-file scenario. -/
theorem C4_result_lists_witness :
    ["a.zip", "b.zip"] =
      ((download_month "2024-01" oBLate fsEmpty).trace.map
        (fun r => r.downloaded)).flatten ∧
    (download_month "2024-01" oBLate fsEmpty).trace.getLast?.map
      (fun r => r.skipped) = some ["a.zip"] :=
  C4_result_lists "2024-01" oBLate fsEmpty ["a.zip", "b.zip"]
    ["a.zip"] (by decide)

end CNPJ
